import Mathlib

/-!
Verification development for the fast-celery-ping repository.

The repository discovers live Celery workers by broadcasting a control-bus
"ping" over a message broker (Redis pub/sub style or AMQP exchange style) and
collecting replies within a bounded time window.  This file gives a shallow
embedding of the protocol handler (`internal/protocol/handler.go`), of the
Redis transport's `Ping` collection loop (`internal/broker/redis.go`) and of
the AMQP transport's `Ping` collection loop (`internal/broker/amqp.go`), and
proves or refutes the specification claims about them.

Modelling conventions:
- JSON documents are modelled by the inductive `Json`; a Go
  `map[string]interface{}` is modelled as a `List (String × Json)` of its
  entries in one particular iteration order (Go randomizes the order of
  `range` over a map, so facts that must hold for the map itself are stated
  for all permutations of the entry list).
- `encoding/json`'s `json.Unmarshal` into `map[string]interface{}` is an
  external standard-library collaborator; it is modelled as an arbitrary
  parameter `p : List Nat → Option JsonDoc` wherever the repository calls it.
  `json.Marshal` is modelled by the executable serializer `serializeBytes`.
- Bytes are `Nat` values; wherever a byte is produced from a character the
  value is reduced `% 256`.
- Time is modelled in integer milliseconds; non-blocking operations take no
  model time, a Redis `BRPop` with a 1 s timeout takes 1000 ms when it times
  out and the (bounded) elapsed time of the event when it yields a payload.
- `uuid.New()` results (reply channel token, ticket, delivery tag) are
  parameters of the model: their freshness/randomness is not modelled.
-/

/-- JSON values, the structured documents exchanged on the wire. -/
inductive Json where
  | null : Json
  | bool (b : Bool) : Json
  | num (n : Int) : Json
  | str (s : String) : Json
  | arr (xs : List Json) : Json
  | obj (kvs : List (String × Json)) : Json

/-- A decoded Go `map[string]interface{}`: the entries of a JSON object in one
iteration order. -/
abbrev JsonDoc := List (String × Json)

/-- Association-list lookup, modelling a Go map index `m[k]` (first entry with
the given key; a well-formed document has no duplicate keys). -/
def alookup : List (String × α) → String → Option α
  | [], _ => none
  | (k', v) :: rest, k => if k' = k then some v else alookup rest k

/-- Whether the character list `hay` starts with `needle`. -/
def listStartsWith : List Char → List Char → Bool
  | _, [] => true
  | [], _ :: _ => false
  | a :: as, b :: bs => a == b && listStartsWith as bs

/-- Whether `needle` occurs contiguously inside `hay`
(Go `strings.Contains` on the underlying characters). -/
def listHasSub : List Char → List Char → Bool
  | [], needle => needle.isEmpty
  | a :: rest, needle => listStartsWith (a :: rest) needle || listHasSub rest needle

/-- Go `strings.Contains s sub`. -/
def strContainsSub (s sub : String) : Bool :=
  listHasSub s.toList sub.toList

/-- Go `strings.Contains s (string of c)` for a single character. -/
def strContainsChar (s : String) (c : Char) : Bool :=
  s.toList.contains c

/-! ## Protocol handler: identity extraction and validation
(`internal/protocol/handler.go`, `ExtractWorkerName` lines 141-189 and
`ValidateResponse` lines 191-212). -/

/-- The recognized identity fields probed by `ExtractWorkerName`
(handler.go line 155). -/
def identityFields : List String := ["hostname", "worker", "nodename", "node", "name"]

/-- Whether a JSON value is an object containing an `"ok"` key
(handler.go lines 146-148). -/
def isPongCapable : Json → Bool
  | .obj kvs => (alookup kvs "ok").isSome
  | _ => false

/-- Predicate of the first loop of `ExtractWorkerName`: an entry whose key
contains `@` and whose value is an object with an `"ok"` field
(handler.go lines 143-151). -/
def atKeyPred (e : String × Json) : Bool :=
  strContainsChar e.1 '@' && isPongCapable e.2

/-- First phase of `ExtractWorkerName`: the first `@`-keyed worker entry, in
entry-enumeration order (handler.go lines 143-152). -/
def atWorkerKey (doc : JsonDoc) : Option String :=
  (doc.find? atKeyPred).map (fun e => e.1)

/-- Probe the recognized identity fields of an entry list in the fixed order
of `identityFields`, returning the first non-empty string value
(handler.go lines 160-166 and 171-177; field access is a map lookup). -/
def firstFieldIn (kvs : JsonDoc) : Option String :=
  identityFields.findSome? (fun f =>
    match alookup kvs f with
    | some (.str s) => if s = "" then none else some s
    | _ => none)

/-- Second phase of `ExtractWorkerName`: identity fields inside the nested
`data` sub-structure (handler.go lines 157-168). -/
def dataIdentity (doc : JsonDoc) : Option String :=
  match alookup doc "data" with
  | some (.obj kvs) => firstFieldIn kvs
  | _ => none

/-- Third phase of `ExtractWorkerName`: identity fields at top level
(handler.go lines 170-177). -/
def topIdentity (doc : JsonDoc) : Option String :=
  firstFieldIn doc

/-- Predicate of the last-resort scan of `ExtractWorkerName`: a string-valued
entry whose value contains `@` or whose key contains `"host"`
(handler.go lines 180-186). -/
def scanPred (e : String × Json) : Bool :=
  match e.2 with
  | .str s => strContainsChar s '@' || strContainsSub e.1 "host"
  | _ => false

/-- The string value returned by the last-resort scan for a matching entry. -/
def scanValue (e : String × Json) : String :=
  match e.2 with
  | .str s => s
  | _ => ""

/-- Fourth phase of `ExtractWorkerName`: scan all entries, in
entry-enumeration order, for a string field that looks like a hostname. -/
def scanIdentity (doc : JsonDoc) : Option String :=
  (doc.find? scanPred).map scanValue

/-- `Handler.ExtractWorkerName` (handler.go lines 141-189): `@`-keyed worker
entries first, then identity fields inside the nested `data` sub-structure,
then identity fields at top level, then the last-resort scan; `""` if nothing
is found. -/
def extractWorkerName (doc : JsonDoc) : String :=
  match atWorkerKey doc with
  | some w => w
  | none =>
    match dataIdentity doc with
    | some v => v
    | none =>
      match topIdentity doc with
      | some v => v
      | none => (scanIdentity doc).getD ""

/-- Predicate of the first loop of `ValidateResponse`: an `@`-keyed entry
whose value is an object whose `"ok"` field is the string `"pong"`
(handler.go lines 194-204). -/
def pongEntryPred (e : String × Json) : Bool :=
  strContainsChar e.1 '@' &&
    (match e.2 with
     | .obj kvs =>
       (match alookup kvs "ok" with
        | some (.str st) => st == "pong"
        | _ => false)
     | _ => false)

/-- `Handler.ValidateResponse` (handler.go lines 191-212): some `@`-keyed
entry answers `"pong"`, or a worker identity can be extracted. -/
def validateResponse (doc : JsonDoc) : Bool :=
  doc.any pongEntryPred || extractWorkerName doc != ""

/-! ## Base64 (`encoding/base64`, `StdEncoding`), as used by
`CreatePingMessage` and `ParseWorkerResponse`. -/

/-- The standard base64 alphabet. -/
def b64Alphabet : List Char :=
  "ABCDEFGHIJKLMNOPQRSTUVWXYZabcdefghijklmnopqrstuvwxyz0123456789+/".toList

/-- Character of a 6-bit group. -/
def b64Char (v : Nat) : Char :=
  b64Alphabet.getD v 'A'

/-- Position of a character in a character list, or `none`. -/
def posOf : List Char → Char → Nat → Option Nat
  | [], _, _ => none
  | c :: rest, ch, i => if c == ch then some i else posOf rest ch (i + 1)

/-- Value of a base64 alphabet character, or `none` for a character outside
the alphabet (in particular for `'='`). -/
def b64Val (ch : Char) : Option Nat :=
  posOf b64Alphabet ch 0

/-- Base64 encoding of a byte list (standard alphabet, `=` padding),
modelling `base64.StdEncoding.EncodeToString`. -/
def b64encode : List Nat → List Char
  | [] => []
  | [a] => [b64Char (a / 4), b64Char (a % 4 * 16), '=', '=']
  | [a, b] => [b64Char (a / 4), b64Char (a % 4 * 16 + b / 16), b64Char (b % 16 * 4), '=']
  | a :: b :: d :: rest =>
    b64Char (a / 4) :: b64Char (a % 4 * 16 + b / 16) ::
      b64Char (b % 16 * 4 + d / 64) :: b64Char (d % 64) :: b64encode rest

/-- Base64 decoding of a character list (standard alphabet, `=` padding),
modelling `base64.StdEncoding.DecodeString`; `none` is the decode error. -/
def b64decode : List Char → Option (List Nat)
  | [] => some []
  | [w, x, y, z] =>
    (match b64Val w, b64Val x with
     | some v1, some v2 =>
       if y == '=' then
         if z == '=' then some [v1 * 4 + v2 / 16] else none
       else
         (match b64Val y with
          | some v3 =>
            if z == '=' then some [v1 * 4 + v2 / 16, v2 % 16 * 16 + v3 / 4]
            else
              (match b64Val z with
               | some v4 =>
                 some [v1 * 4 + v2 / 16, v2 % 16 * 16 + v3 / 4, v3 % 4 * 64 + v4]
               | none => none)
          | none => none)
     | _, _ => none)
  | w :: x :: y :: z :: e :: rest =>
    (match b64Val w, b64Val x, b64Val y, b64Val z, b64decode (e :: rest) with
     | some v1, some v2, some v3, some v4, some bs =>
       some ((v1 * 4 + v2 / 16) :: (v2 % 16 * 16 + v3 / 4) :: (v3 % 4 * 64 + v4) :: bs)
     | _, _, _, _, _ => none)
  | _ => none

theorem b64Val_b64Char : ∀ v, v < 64 → b64Val (b64Char v) = some v := by decide

theorem b64Char_ne_pad : ∀ v, v < 64 → (b64Char v == '=') = false := by decide

/-- A nonempty byte list encodes to a nonempty character list. -/
theorem b64encode_ne_nil (l : List Nat) (h : l ≠ []) : ∃ c cs, b64encode l = c :: cs := by
  match l with
  | [] => exact absurd rfl h
  | [a] => exact ⟨_, _, rfl⟩
  | [a, b] => exact ⟨_, _, rfl⟩
  | a :: b :: d :: rest => exact ⟨_, _, rfl⟩

/-- Base64 round trip: decoding an encoded byte list recovers the bytes. -/
theorem b64decode_b64encode (l : List Nat) (hb : ∀ b ∈ l, b < 256) :
    b64decode (b64encode l) = some l := by
  induction l using b64encode.induct with
  | case1 => rfl
  | case2 a =>
    have ha : a < 256 := hb a (by simp)
    have h1 : a / 4 < 64 := by omega
    have h2 : a % 4 * 16 < 64 := by omega
    simp [b64encode, b64decode, b64Val_b64Char _ h1, b64Val_b64Char _ h2]
    omega
  | case3 a b =>
    have ha : a < 256 := hb a (by simp)
    have hbb : b < 256 := hb b (by simp)
    have h1 : a / 4 < 64 := by omega
    have h2 : a % 4 * 16 + b / 16 < 64 := by omega
    have h3 : b % 16 * 4 < 64 := by omega
    simp [b64encode, b64decode, b64Val_b64Char _ h1, b64Val_b64Char _ h2,
      b64Val_b64Char _ h3, b64Char_ne_pad _ h3]
    constructor <;> omega
  | case4 a b d rest ih =>
    have ha : a < 256 := hb a (by simp)
    have hbb : b < 256 := hb b (by simp)
    have hd : d < 256 := hb d (by simp)
    have h1 : a / 4 < 64 := by omega
    have h2 : a % 4 * 16 + b / 16 < 64 := by omega
    have h3 : b % 16 * 4 + d / 64 < 64 := by omega
    have h4 : d % 64 < 64 := by omega
    have e1 : a / 4 * 4 + (a % 4 * 16 + b / 16) / 16 = a := by omega
    have e2 : (a % 4 * 16 + b / 16) % 16 * 16 + (b % 16 * 4 + d / 64) / 4 = b := by omega
    have e3 : (b % 16 * 4 + d / 64) % 4 * 64 + d % 64 = d := by omega
    have ihr : b64decode (b64encode rest) = some rest := by
      apply ih
      intro x hx
      exact hb x (by simp [hx])
    cases rest with
    | nil =>
      simp [b64encode, b64decode, b64Val_b64Char _ h1, b64Val_b64Char _ h2,
        b64Val_b64Char _ h3, b64Val_b64Char _ h4, b64Char_ne_pad _ h3,
        b64Char_ne_pad _ h4, e1, e2, e3]
    | cons e es =>
      obtain ⟨c, cs, hcc⟩ := b64encode_ne_nil (e :: es) (by simp)
      rw [show b64encode (a :: b :: d :: e :: es) =
        b64Char (a / 4) :: b64Char (a % 4 * 16 + b / 16) ::
          b64Char (b % 16 * 4 + d / 64) :: b64Char (d % 64) :: b64encode (e :: es) from rfl,
        hcc]
      rw [show b64decode (b64Char (a / 4) :: b64Char (a % 4 * 16 + b / 16) ::
          b64Char (b % 16 * 4 + d / 64) :: b64Char (d % 64) :: c :: cs) =
        (match b64Val (b64Char (a / 4)), b64Val (b64Char (a % 4 * 16 + b / 16)),
          b64Val (b64Char (b % 16 * 4 + d / 64)), b64Val (b64Char (d % 64)),
          b64decode (c :: cs) with
         | some v1, some v2, some v3, some v4, some bs =>
           some ((v1 * 4 + v2 / 16) :: (v2 % 16 * 16 + v3 / 4) :: (v3 % 4 * 64 + v4) :: bs)
         | _, _, _, _, _ => none) from rfl]
      rw [← hcc, ihr]
      simp [b64Val_b64Char _ h1, b64Val_b64Char _ h2, b64Val_b64Char _ h3,
        b64Val_b64Char _ h4, e1, e2, e3]

/-! ## JSON serialization, modelling `json.Marshal`.

Object keys appear in the entry-list order of the document being
serialized; the concrete documents built below list their keys in the
alphabetical order `json.Marshal` uses for Go maps.  Only the byte-level
faithfulness matters to the claims (the enveloped body is the base64 of
these bytes); the text produced is plain JSON without escaping, which is
exact for the ASCII, quote-free strings the ping messages contain. -/

mutual

/-- Render a JSON value as text. -/
def renderJson : Json → String
  | .null => "null"
  | .bool true => "true"
  | .bool false => "false"
  | .num n => toString n
  | .str s => "\"" ++ s ++ "\""
  | .arr xs => "[" ++ renderElems xs ++ "]"
  | .obj kvs => "\x7b" ++ renderFields kvs ++ "\x7d"

/-- Render array elements, comma separated. -/
def renderElems : List Json → String
  | [] => ""
  | [x] => renderJson x
  | x :: y :: rest => renderJson x ++ "," ++ renderElems (y :: rest)

/-- Render object fields, comma separated. -/
def renderFields : List (String × Json) → String
  | [] => ""
  | [(k, v)] => "\"" ++ k ++ "\":" ++ renderJson v
  | (k, v) :: e :: rest => "\"" ++ k ++ "\":" ++ renderJson v ++ "," ++ renderFields (e :: rest)

end

/-- The bytes `json.Marshal` puts on the wire for a JSON value (each
character reduced to a byte). -/
def serializeBytes (j : Json) : List Nat :=
  (renderJson j).toList.map (fun c => c.toNat % 256)

/-- Every serialized byte is an actual byte. -/
theorem serializeBytes_lt_256 (j : Json) : ∀ b ∈ serializeBytes j, b < 256 := by
  intro b hb
  simp only [serializeBytes, List.mem_map] at hb
  obtain ⟨c, _, rfl⟩ := hb
  exact Nat.mod_lt _ (by norm_num)

/-! ## `Handler.CreatePingMessage` (handler.go lines 36-105). -/

/-- The two wire formats of `CreatePingMessage` (handler.go lines 14-21). -/
inductive MessageFormat where
  | raw : MessageFormat
  | enveloped : MessageFormat

/-- The control message `CreatePingMessage` builds (handler.go lines 48-59),
with keys listed in the alphabetical order `json.Marshal` emits.  The
`ticket` is the `uuid.New().String()` generated for the call.  `destination`
is JSON `null` unless the destination list is non-empty (handler.go
lines 40-45). -/
def ctrlMsg (replyTo : String) (dests : List String) (ticket : String) : JsonDoc :=
  [("arguments", .obj []),
   ("destination", if dests.isEmpty then .null else .arr (dests.map .str)),
   ("matcher", .null),
   ("method", .str "ping"),
   ("pattern", .null),
   ("reply_to", .obj [("exchange", .str "reply.celery.pidbox"),
                      ("routing_key", .str replyTo)]),
   ("ticket", .str ticket)]

/-- The envelope `CreatePingMessage` wraps around the base64-encoded control
message in the enveloped format (handler.go lines 66-101), keys in
`json.Marshal` order.  `nowSec` is the `time.Now().Unix()` reading and `tag`
the generated delivery tag; `headers.expires` is `nowSec + 10`
(handler.go lines 76-78). -/
def pingEnvelope (replyTo : String) (dests : List String) (ticket tag : String)
    (nowSec : Nat) : JsonDoc :=
  [("body", .str ⟨b64encode (serializeBytes (.obj (ctrlMsg replyTo dests ticket)))⟩),
   ("content-encoding", .str "utf-8"),
   ("content-type", .str "application/json"),
   ("headers", .obj [("clock", .num 1), ("expires", .num (nowSec + 10 : Nat))]),
   ("properties", .obj [("body_encoding", .str "base64"),
                        ("delivery_info", .obj [("exchange", .str "celery.pidbox"),
                                                ("routing_key", .str "")]),
                        ("delivery_mode", .num 2),
                        ("delivery_tag", .str tag),
                        ("priority", .num 0)])]

/-- `Handler.CreatePingMessage` (handler.go lines 36-105), at the document
level: the raw format is the control message itself, the enveloped format the
envelope.  (The Go `default` branch of the format switch is unreachable for
the two defined formats and is not modelled.) -/
def createPingMessage (replyTo : String) (dests : List String) (fmt : MessageFormat)
    (ticket tag : String) (nowSec : Nat) : JsonDoc :=
  match fmt with
  | .raw => ctrlMsg replyTo dests ticket
  | .enveloped => pingEnvelope replyTo dests ticket tag nowSec

/-! ## `Handler.ParseWorkerResponse` (handler.go lines 107-138). -/

/-- `Handler.ParseWorkerResponse` (handler.go lines 107-138), parameterized by
the behaviour `p` of `json.Unmarshal` into `map[string]interface{}`: parse the
bytes directly; when the resulting document holds a string `body` field,
base64-decode it and re-parse, returning the unwrapped inner document;
`Except.error` is the decode error the caller treats as skip-not-fatal. -/
def parseWorkerResponse (p : List Nat → Option JsonDoc) (data : List Nat) :
    Except String JsonDoc :=
  match p data with
  | none => .error "failed to parse response envelope"
  | some env =>
    match alookup env "body" with
    | some (.str bodyString) =>
      match b64decode bodyString.toList with
      | none => .error "failed to decode base64 body"
      | some bodyBytes =>
        match p bodyBytes with
        | none => .error "failed to parse decoded body"
        | some decodedBody => .ok decodedBody
    | _ => .ok env

/-! ## The response collector step shared by both transports.

Both `RedisBroker.Ping` (redis.go lines 280-296) and `AMQPBroker.Ping`
(amqp.go lines 346-362) process one received payload with the same code:
parse with `ParseWorkerResponse` (skip on error), check `ValidateResponse`,
extract the worker name, and when it is non-empty upsert
`PingResponse{workerName, "pong", time.Now().Unix()}` into the response map
keyed by the worker name. -/

/-- One collected worker response (`broker.PingResponse`). -/
structure PingResponse where
  workerName : String
  status : String
  timestamp : Nat
deriving DecidableEq

/-- Go map assignment `m[k] = v`: replace the entry of an existing key,
append a new entry otherwise. -/
def upsert : List (String × α) → String → α → List (String × α)
  | [], k, v => [(k, v)]
  | (k', v') :: rest, k, v =>
    if k' = k then (k, v) :: rest else (k', v') :: upsert rest k v

/-- The shared per-payload collector step; `t` is the `time.Now().Unix()`
reading recorded if the payload is accepted. -/
def collectStep (p : List Nat → Option JsonDoc) (t : Nat)
    (responses : List (String × PingResponse)) (payload : List Nat) :
    List (String × PingResponse) :=
  match parseWorkerResponse p payload with
  | .error _ => responses
  | .ok response =>
    if validateResponse response then
      let workerName := extractWorkerName response
      if workerName = "" then responses
      else upsert responses workerName ⟨workerName, "pong", t⟩
    else responses

/-! ## `RedisBroker.Ping` (redis.go lines 205-304).

The model makes the broker's behaviour explicit: `events` is the sequence of
outcomes of successive `BRPop` calls (`redis.Nil` timeout, a connectivity
error, or a popped payload with its bounded elapsed time), and the Booleans
`publishOk`/`saddOk` are the outcomes of the setup commands.  Non-blocking
operations take no model time; a `BRPop` timeout takes the full 1000 ms.
Context cancellation surfaces as a `BRPop` error (`connErr`), exactly as the
Go client reports it inside the loop.  If the event list is exhausted while
the loop would still run, the model stops collecting (real executions supply
one event per pop). -/

/-- Outcome of one `BRPop` call (redis.go lines 266-274). -/
inductive PopEvent where
  | nilTimeout : PopEvent
  | connErr : PopEvent
  | payload (bytes : List Nat) (elapsedMs : Nat) : PopEvent
deriving DecidableEq

/-- A Redis command issued by `Ping`, as recorded by the model. -/
inductive RCmd where
  | publish (channel : String) (message : Json) : RCmd
  | sadd (key member : String) : RCmd
  | srem (key member : String) : RCmd
  | del (keys : List String) : RCmd
  | brpop (timeoutMs : Nat) (keys : List String) : RCmd

/-- The base reply queue `<token>.reply.celery.pidbox` (redis.go line 220). -/
def baseReplyQueue (replyTo : String) : String :=
  replyTo ++ ".reply.celery.pidbox"

/-- The two-byte priority marker `0x06 0x16` (redis.go lines 225-227). -/
def prioSep : String :=
  ⟨[Char.ofNat 6, Char.ofNat 22]⟩

/-- The four reply queue variants `Ping` listens on (redis.go lines 223-228):
the base queue and the three priority-tagged variants. -/
def replyQueues (replyTo : String) : List String :=
  [baseReplyQueue replyTo,
   baseReplyQueue replyTo ++ prioSep ++ "3",
   baseReplyQueue replyTo ++ prioSep ++ "6",
   baseReplyQueue replyTo ++ prioSep ++ "9"]

/-- The binding-registry member
`<token><sep><sep><base-reply-queue>` (redis.go line 237). -/
def bindingKey (replyTo : String) : String :=
  replyTo ++ prioSep ++ prioSep ++ baseReplyQueue replyTo

/-- The binding-registry set key (redis.go line 238). -/
def bindingSetKey : String := "_kombu.binding.reply.celery.pidbox"

/-- The collection loop of `RedisBroker.Ping` (redis.go lines 250-297),
returning the collected responses, the number of `BRPop` calls performed and
the commands issued.  The loop runs while `now < deadline`, breaks when the
remaining time is below the 1 s minimum `BRPop` wait, breaks on a `BRPop`
error other than `redis.Nil`, and otherwise processes the popped payload with
the shared collector step. -/
def redisLoop (p : List Nat → Option JsonDoc) (deadline : Nat) (queues : List String) :
    List PopEvent → Nat → List (String × PingResponse) →
      List (String × PingResponse) × Nat × List RCmd
  | events, now, responses =>
    if deadline ≤ now then (responses, 0, [])
    else if deadline - now < 1000 then (responses, 0, [])
    else
      match events with
      | [] => (responses, 0, [])
      | .nilTimeout :: rest =>
        let r := redisLoop p deadline queues rest (now + 1000) responses
        (r.1, r.2.1 + 1, .brpop 1000 queues :: r.2.2)
      | .connErr :: _ => (responses, 1, [.brpop 1000 queues])
      | .payload bytes elapsed :: rest =>
        let now' := now + min elapsed 1000
        let r := redisLoop p deadline queues rest now'
          (collectStep p (now' / 1000) responses bytes)
        (r.1, r.2.1 + 1, .brpop 1000 queues :: r.2.2)

/-- Outcome of `RedisBroker.Ping`: the returned map (or `none` with an
error), the Go error, the Redis commands issued, and the number of `BRPop`
receive attempts. -/
structure RedisOutcome where
  result : Option (List (String × PingResponse))
  error : Option String
  cmds : List RCmd
  pops : Nat

/-- `RedisBroker.Ping` (redis.go lines 205-304).  `clientInit` is whether the
Redis client was initialized, `now0` the start time in ms, `timeoutMs` the
caller's timeout.  The ping message is created in enveloped format; after a
successful publish and binding registration the code pauses 50 ms, runs the
collection loop against `deadline = now0 + timeoutMs`, and on every path out
of the loop removes the binding-registry entry and deletes all reply queues
before returning the collected responses with no error. -/
def redisPing (p : List Nat → Option JsonDoc) (clientInit : Bool)
    (replyTo ticket tag : String) (dests : List String)
    (timeoutMs now0 : Nat) (publishOk saddOk : Bool)
    (events : List PopEvent) : RedisOutcome :=
  if ¬clientInit then
    ⟨none, some "Redis client not initialized", [], 0⟩
  else
    let pingMsg : Json := .obj (pingEnvelope replyTo dests ticket tag (now0 / 1000))
    let pub : RCmd := .publish "/0.celery.pidbox" pingMsg
    if ¬publishOk then
      ⟨none, some "failed to publish ping message", [pub], 0⟩
    else
      let sa : RCmd := .sadd bindingSetKey (bindingKey replyTo)
      if ¬saddOk then
        ⟨none, some "failed to register reply queue binding", [pub, sa], 0⟩
      else
        let deadline := now0 + timeoutMs
        let r := redisLoop p deadline (replyQueues replyTo) events (now0 + 50) []
        ⟨some r.1, none,
         pub :: sa :: r.2.2 ++ [.srem bindingSetKey (bindingKey replyTo),
                                .del (replyQueues replyTo)],
         r.2.1⟩

/-! ## `AMQPBroker.Ping` collection loop (amqp.go lines 324-372).

The loop multiplexes four events: context cancellation, the overall deadline
(`time.After(timeout)`), the next inbound message on the consume stream, and
the 100 ms inactivity timer (`responseTimeout`), which is armed at loop start
and re-armed to `arrival + 100` on each inbound message; after it fires with
zero responses it stays disarmed until the next message.  The model carries
the arrival-time-stamped message list (times nondecreasing), resolves which
pending event fires first, and breaks ties in the fixed order cancellation,
deadline, timer, message (Go's `select` picks randomly among simultaneously
ready channels; the claims below use strict orderings, for which the
tie-break is irrelevant).  Closure of the consume stream is not modelled. -/

/-- State of the AMQP collection loop between iterations. -/
structure AmqpState where
  msgs : List (Nat × List Nat)
  timerDl : Nat
  timerArmed : Bool
  responses : List (String × PingResponse)

/-- `a` is no later than an optional pending time. -/
def leOpt (a : Nat) : Option Nat → Bool
  | none => true
  | some b => a ≤ b

/-- Arrival time of the next inbound message, if any. -/
def headMsgTime (s : AmqpState) : Option Nat :=
  match s.msgs with
  | [] => none
  | (t, _) :: _ => some t

/-- Pending inactivity-timer deadline, if armed. -/
def timerTime (s : AmqpState) : Option Nat :=
  if s.timerArmed then some s.timerDl else none

/-- The collection loop of `AMQPBroker.Ping` (amqp.go lines 328-371):
cancellation returns the collected responses with the context error; the
deadline returns them with no error; an inbound message is processed by the
shared collector step and re-arms the inactivity timer to `arrival + 100`;
the inactivity timer firing returns early when at least one response has been
collected and otherwise disarms and keeps waiting. -/
def amqpLoop (p : List Nat → Option JsonDoc) (deadline : Nat) (cancelT : Option Nat)
    (s : AmqpState) : List (String × PingResponse) × Option String :=
  if (match cancelT with
      | some c => c ≤ deadline && leOpt c (timerTime s) && leOpt c (headMsgTime s)
      | none => false) then
    (s.responses, some "context canceled")
  else if leOpt deadline (timerTime s) && leOpt deadline (headMsgTime s) then
    (s.responses, none)
  else if s.timerArmed && s.timerDl ≤ deadline && leOpt s.timerDl (headMsgTime s) then
    if s.responses.length > 0 then
      (s.responses, none)
    else
      amqpLoop p deadline cancelT ⟨s.msgs, s.timerDl, false, s.responses⟩
  else
    match hm : s.msgs with
    | [] => (s.responses, none)
    | (t, bytes) :: rest =>
      amqpLoop p deadline cancelT
        ⟨rest, t + 100, true, collectStep p (t / 1000) s.responses bytes⟩
termination_by s.msgs.length * 2 + (if s.timerArmed then 1 else 0)
decreasing_by
  · simp_all
  · simp_all [hm]
    omega

/-! ## Claim C2: search order of identity extraction. -/

/-- A document with a recognized, non-empty identity field both at top level
and inside the nested `data` sub-structure, and no `@`-keyed worker entry. -/
def c2doc : JsonDoc :=
  [("hostname", .str "top@host"),
   ("data", .obj [("hostname", .str "nested@host")])]

/-- Claim C2 is false on the code: `ExtractWorkerName` probes the nested
`data` sub-structure before the top level (handler.go lines 157-177, comment
"Check in the data field first"), so for `c2doc` — which has the recognized
identity field `hostname` non-empty both at top level and inside `data`, and
no `@`-keyed worker entry — the nested value is returned, not the top-level
value the claim predicts. -/
theorem extractWorkerName_top_level_not_first_cex :
    atWorkerKey c2doc = none ∧
    topIdentity c2doc = some "top@host" ∧
    dataIdentity c2doc = some "nested@host" ∧
    extractWorkerName c2doc = "nested@host" ∧
    "nested@host" ≠ "top@host" := by
  refine ⟨by decide, by decide, by decide, by decide, by decide⟩

/-- Claim C2, amended: `ExtractWorkerName` searches the recognized identity
fields inside the nested `data` sub-structure first and only then at the top
level of the document; for every document with no `@`-keyed worker entry
whose nested `data` sub-structure yields an identity value, that nested value
is returned (regardless of any top-level identity field). -/
theorem extractWorkerName_data_before_top (doc : JsonDoc) (v : String)
    (h1 : atWorkerKey doc = none) (h2 : dataIdentity doc = some v) :
    extractWorkerName doc = v := by
  unfold extractWorkerName
  rw [h1, h2]

theorem extractWorkerName_data_before_top_witness :
    atWorkerKey c2doc = none ∧ dataIdentity c2doc = some "nested@host" ∧
      extractWorkerName c2doc = "nested@host" :=
  ⟨by decide, by decide,
   extractWorkerName_data_before_top c2doc "nested@host" (by decide) (by decide)⟩

/-! ## Claim C3: shape of the ping message in both wire formats. -/

/-- Claim C3: in both wire formats `CreatePingMessage` produces a control
message whose `method` is `"ping"`, whose `arguments` mapping is empty, whose
`destination` is JSON `null` when the destination list is empty (broadcast)
and exactly the given list of target identifiers in the given order
otherwise, and which carries the ticket generated for the call; the raw
format is the control message itself, and the enveloped format wraps exactly
its serialization: base64-decoding the envelope's `body` yields the
serialized control-message document. -/
theorem createPingMessage_spec (replyTo : String) (dests : List String)
    (ticket tag : String) (nowSec : Nat) :
    createPingMessage replyTo dests .raw ticket tag nowSec =
      ctrlMsg replyTo dests ticket ∧
    createPingMessage replyTo dests .enveloped ticket tag nowSec =
      pingEnvelope replyTo dests ticket tag nowSec ∧
    alookup (ctrlMsg replyTo dests ticket) "method" = some (.str "ping") ∧
    alookup (ctrlMsg replyTo dests ticket) "arguments" = some (.obj []) ∧
    alookup (ctrlMsg replyTo dests ticket) "destination" =
      some (if dests.isEmpty then Json.null else .arr (dests.map .str)) ∧
    alookup (ctrlMsg replyTo dests ticket) "ticket" = some (.str ticket) ∧
    ∃ bodyStr,
      alookup (pingEnvelope replyTo dests ticket tag nowSec) "body" =
        some (.str bodyStr) ∧
      b64decode bodyStr.toList =
        some (serializeBytes (.obj (ctrlMsg replyTo dests ticket))) := by
  refine ⟨rfl, rfl, rfl, rfl, rfl, rfl,
    ⟨⟨b64encode (serializeBytes (.obj (ctrlMsg replyTo dests ticket)))⟩, rfl, ?_⟩⟩
  show b64decode (b64encode (serializeBytes (.obj (ctrlMsg replyTo dests ticket)))) = _
  exact b64decode_b64encode _ (serializeBytes_lt_256 _)

/-! ## Claim C4: response decoding and envelope unwrapping. -/

/-- Claim C4: for every byte sequence fed to `ParseWorkerResponse` (with `p`
the behaviour of the external `json.Unmarshal`): the bytes are first parsed
directly; a direct parse failure is a decode error; a document without a
`body` field, or with a non-string `body` field, is returned as-is; when the
document holds a string `body` field, that text is base64-decoded and
re-parsed, the unwrapped inner document is returned on success, and a base64
or inner parse failure is a decode error.  Decoding fails exactly when
neither the direct content nor the unwrapped inner content yields a
well-formed document. -/
theorem parseWorkerResponse_spec (p : List Nat → Option JsonDoc) (data : List Nat) :
    (p data = none →
      parseWorkerResponse p data = .error "failed to parse response envelope") ∧
    (∀ env, p data = some env → alookup env "body" = none →
      parseWorkerResponse p data = .ok env) ∧
    (∀ env j, p data = some env → alookup env "body" = some j →
      (∀ s, j ≠ .str s) → parseWorkerResponse p data = .ok env) ∧
    (∀ env s, p data = some env → alookup env "body" = some (.str s) →
      b64decode s.toList = none →
      parseWorkerResponse p data = .error "failed to decode base64 body") ∧
    (∀ env s bs, p data = some env → alookup env "body" = some (.str s) →
      b64decode s.toList = some bs → p bs = none →
      parseWorkerResponse p data = .error "failed to parse decoded body") ∧
    (∀ env s bs inner, p data = some env → alookup env "body" = some (.str s) →
      b64decode s.toList = some bs → p bs = some inner →
      parseWorkerResponse p data = .ok inner) := by
  refine ⟨?_, ?_, ?_, ?_, ?_, ?_⟩
  · intro h
    simp [parseWorkerResponse, h]
  · intro env h hb
    simp [parseWorkerResponse, h, hb]
  · intro env j h hb hs
    cases j with
    | str s => exact absurd rfl (hs s)
    | null => simp [parseWorkerResponse, h, hb]
    | bool b => simp [parseWorkerResponse, h, hb]
    | num n => simp [parseWorkerResponse, h, hb]
    | arr xs => simp [parseWorkerResponse, h, hb]
    | obj kvs => simp [parseWorkerResponse, h, hb]
  · intro env s h hb hd
    simp only [String.toList] at hd
    simp [parseWorkerResponse, h, hb, hd]
  · intro env s bs h hb hd hp
    simp only [String.toList] at hd
    simp [parseWorkerResponse, h, hb, hd, hp]
  · intro env s bs inner h hb hd hp
    simp only [String.toList] at hd
    simp [parseWorkerResponse, h, hb, hd, hp]

/-- A concrete `json.Unmarshal` behaviour for exercising
`parseWorkerResponse_spec`: byte `[0]` is an envelope whose base64 `body`
`"AQ=="` decodes to byte `[1]`, which parses as a worker document. -/
def c4p : List Nat → Option JsonDoc := fun bs =>
  if bs = [0] then some [("body", .str "AQ==")]
  else if bs = [1] then some [("hostname", .str "w@h")]
  else none

theorem parseWorkerResponse_spec_witness :
    c4p [0] = some [("body", .str "AQ==")] ∧
    b64decode "AQ==".toList = some [1] ∧
    parseWorkerResponse c4p [0] = .ok [("hostname", .str "w@h")] :=
  ⟨rfl, rfl,
   (parseWorkerResponse_spec c4p [0]).2.2.2.2.2 [("body", .str "AQ==")] "AQ==" [1]
     [("hostname", .str "w@h")] rfl rfl rfl rfl⟩

/-! ## Claim C5: last-write-wins deduplication. -/

/-- A payload that decodes, validates, and extracts to worker identity `w`. -/
def matchesWorker (p : List Nat → Option JsonDoc) (w : String) (payload : List Nat) : Prop :=
  ∃ doc, parseWorkerResponse p payload = .ok doc ∧
    validateResponse doc = true ∧ extractWorkerName doc = w

/-- The collector step on a payload matching identity `w ≠ ""` is exactly the
map upsert of a fresh `pong` record for `w`. -/
theorem collectStep_matching (p : List Nat → Option JsonDoc) (t : Nat)
    (m : List (String × PingResponse)) (b : List Nat) (w : String)
    (hm : matchesWorker p w b) (hw : ¬w = "") :
    collectStep p t m b = upsert m w ⟨w, "pong", t⟩ := by
  obtain ⟨doc, h1, h2, h3⟩ := hm
  simp [collectStep, h1, h2, h3, hw]

/-- A fold that keeps only the last element. -/
theorem foldl_const_last (f : α → β) :
    ∀ (l : List α) (itl : α) (v0 : β), l.getLast? = some itl →
      l.foldl (fun _ it => f it) v0 = f itl
  | [], itl, v0, h => by simp at h
  | [a], itl, v0, h => by
    simp [List.getLast?] at h
    subst h
    rfl
  | a :: b :: m, itl, v0, h => by
    rw [List.foldl_cons]
    exact foldl_const_last f (b :: m) itl _ (by simpa using h)

/-- Folding the collector step over payloads that all match the same identity
`w`, starting from a map holding only `w`, keeps the map a singleton for `w`
whose record tracks the most recently processed payload. -/
theorem collect_fold_single (p : List Nat → Option JsonDoc) (w : String) (hw : ¬w = "") :
    ∀ (items : List (List Nat × Nat)) (v0 : PingResponse),
      (∀ it ∈ items, matchesWorker p w it.1) →
      items.foldl (fun m it => collectStep p it.2 m it.1) [(w, v0)] =
        [(w, items.foldl (fun _ it => (⟨w, "pong", it.2⟩ : PingResponse)) v0)]
  | [], v0, _ => rfl
  | it :: rest, v0, hall => by
    rw [List.foldl_cons, List.foldl_cons,
      collectStep_matching p it.2 [(w, v0)] it.1 w (hall it (by simp)) hw]
    have hup : upsert [(w, v0)] w ⟨w, "pong", it.2⟩ = [(w, ⟨w, "pong", it.2⟩)] := by
      simp [upsert]
    rw [hup]
    exact collect_fold_single p w hw rest _ (fun x hx => hall x (by simp [hx]))

/-- Claim C5: deduplication is last-write-wins.  For any sequence of received
payloads that all validate and extract to the same worker identity `w`,
processed in order by the shared collector step both transports' loops run on
each popped/consumed payload, the final response map is exactly one entry for
`w`, holding the `pong` record written when the last payload was processed. -/
theorem collect_dedup_last_write_wins (p : List Nat → Option JsonDoc) (w : String)
    (items : List (List Nat × Nat)) (itl : List Nat × Nat) (hw : ¬w = "")
    (hl : items.getLast? = some itl)
    (hall : ∀ it ∈ items, matchesWorker p w it.1) :
    items.foldl (fun m it => collectStep p it.2 m it.1) [] =
      [(w, ⟨w, "pong", itl.2⟩)] := by
  cases items with
  | nil => simp at hl
  | cons it rest =>
    rw [List.foldl_cons,
      collectStep_matching p it.2 [] it.1 w (hall it (by simp)) hw]
    have hup : upsert [] w (⟨w, "pong", it.2⟩ : PingResponse) = [(w, ⟨w, "pong", it.2⟩)] := rfl
    rw [hup, collect_fold_single p w hw rest _ (fun x hx => hall x (by simp [hx]))]
    have : rest.foldl (fun _ x => (⟨w, "pong", x.2⟩ : PingResponse)) ⟨w, "pong", it.2⟩ =
        (it :: rest).foldl (fun _ x => (⟨w, "pong", x.2⟩ : PingResponse)) ⟨w, "pong", it.2⟩ := by
      rw [List.foldl_cons]
    rw [this, foldl_const_last _ (it :: rest) itl _ hl]

/-- A concrete `json.Unmarshal` behaviour for exercising the deduplication
theorem: byte `[2]` parses as a document identifying worker `"w@h"`. -/
def c5p : List Nat → Option JsonDoc := fun bs =>
  if bs = [2] then some [("hostname", .str "w@h")] else none

theorem collect_dedup_last_write_wins_witness :
    ¬"w@h" = "" ∧
    [([2], 1700), ([2], 1800)].getLast? = some (([2] : List Nat), 1800) ∧
    [([2], 1700), ([2], 1800)].foldl (fun m it => collectStep c5p it.2 m it.1) [] =
      [("w@h", ⟨"w@h", "pong", 1800⟩)] :=
  ⟨by decide, by decide,
   collect_dedup_last_write_wins c5p "w@h" [([2], 1700), ([2], 1800)] ([2], 1800)
     (by decide) (by decide)
     (by
       intro it hit
       simp only [List.mem_cons, List.not_mem_nil, or_false] at hit
       rcases hit with h | h <;> subst h <;>
         exact ⟨[("hostname", .str "w@h")], rfl, by decide, by decide⟩)⟩

/-! ## Claim C7: cleanup on every exit path of `RedisBroker.Ping`. -/

/-- Claim C7: once the reply-channel binding has been registered (publish and
`SAdd` succeeded on an initialized client), every exit path of
`RedisBroker.Ping` — success, deadline expiry, cancellation or a broker error
inside the loop, i.e. every possible `BRPop` event sequence — removes the
binding-registry entry and deletes all four reply-address keys as its final
two commands before returning (redis.go lines 299-301). -/
theorem redisPing_cleanup_on_every_exit (p : List Nat → Option JsonDoc)
    (replyTo ticket tag : String) (dests : List String)
    (timeoutMs now0 : Nat) (events : List PopEvent) :
    ∃ mid,
      (redisPing p true replyTo ticket tag dests timeoutMs now0 true true events).cmds =
        mid ++ [RCmd.srem bindingSetKey (bindingKey replyTo),
                RCmd.del (replyQueues replyTo)] := by
  refine ⟨RCmd.publish "/0.celery.pidbox"
      (.obj (pingEnvelope replyTo dests ticket tag (now0 / 1000))) ::
    RCmd.sadd bindingSetKey (bindingKey replyTo) ::
    (redisLoop p (now0 + timeoutMs) (replyQueues replyTo) events (now0 + 50) []).2.2, ?_⟩
  simp [redisPing]

/-! ## Claim C10: a timeout below the pause plus minimum pop wait. -/

/-- The loop performs no iteration once less than the 1 s minimum `BRPop`
wait remains before the deadline. -/
theorem redisLoop_expired (p : List Nat → Option JsonDoc) (dl : Nat)
    (q : List String) (events : List PopEvent) (now : Nat)
    (m : List (String × PingResponse)) (h : dl - now < 1000) :
    redisLoop p dl q events now m = (m, 0, []) := by
  rw [redisLoop.eq_def]
  by_cases h1 : dl ≤ now
  · simp [h1]
  · simp [h1, h]

/-- Claim C10: with an initialized client and successful publish and binding
registration, whenever the caller's timeout is smaller than the 50 ms
registration pause plus the 1 s minimum per-iteration `BRPop` wait, Ping
performs zero blocking-pop receive attempts and returns an empty response map
with no error, regardless of what replies workers send (the `events`). -/
theorem redisPing_short_timeout_no_pops (p : List Nat → Option JsonDoc)
    (replyTo ticket tag : String) (dests : List String)
    (timeoutMs now0 : Nat) (events : List PopEvent) (h : timeoutMs < 1050) :
    (redisPing p true replyTo ticket tag dests timeoutMs now0 true true events).pops = 0 ∧
    (redisPing p true replyTo ticket tag dests timeoutMs now0 true true events).result =
      some [] ∧
    (redisPing p true replyTo ticket tag dests timeoutMs now0 true true events).error =
      none := by
  have hl : redisLoop p (now0 + timeoutMs) (replyQueues replyTo) events (now0 + 50) [] =
      ([], 0, []) :=
    redisLoop_expired _ _ _ _ _ _ (by omega)
  simp [redisPing, hl]

theorem redisPing_short_timeout_no_pops_witness :
    1000 < 1050 ∧
    ((redisPing c5p true "r" "t" "g" [] 1000 0 true true
        [.payload [2] 10]).pops = 0 ∧
     (redisPing c5p true "r" "t" "g" [] 1000 0 true true
        [.payload [2] 10]).result = some [] ∧
     (redisPing c5p true "r" "t" "g" [] 1000 0 true true
        [.payload [2] 10]).error = none) :=
  ⟨by decide,
   redisPing_short_timeout_no_pops c5p "r" "t" "g" [] 1000 0
     [.payload [2] 10] (by decide)⟩

/-! ## Claim C1: broker connectivity error inside the collection loop. -/

/-- A `json.Unmarshal` behaviour that never yields a document. -/
def c1p : List Nat → Option JsonDoc := fun _ => none

/-- Claim C1 is false on the code: when a broker connectivity error occurs on
the very first `BRPop` — zero responses collected — `RedisBroker.Ping` does
not surface the error: the `break` at redis.go line 273 leaves the loop and
line 303 returns the empty response map with a nil error. -/
theorem redisPing_error_not_surfaced_cex :
    (redisPing c1p true "r" "t" "g" [] 5000 0 true true [.connErr]).error = none ∧
    (redisPing c1p true "r" "t" "g" [] 5000 0 true true [.connErr]).result = some [] ∧
    (redisPing c1p true "r" "t" "g" [] 5000 0 true true [.connErr]).pops = 1 :=
  ⟨rfl, rfl, rfl⟩

/-- The responses collected, and the time reached, by processing a sequence
of pop events in order with the shared collector step and the loop's time
accounting — the fold the collection loop applies, stopping at a
connectivity error, stated independently of any deadline logic. -/
def collectRun (p : List Nat → Option JsonDoc) :
    List PopEvent → Nat → List (String × PingResponse) →
      List (String × PingResponse) × Nat
  | [], now, m => (m, now)
  | .nilTimeout :: rest, now, m => collectRun p rest (now + 1000) m
  | .connErr :: _, now, m => (m, now)
  | .payload bytes elapsed :: rest, now, m =>
    collectRun p rest (now + min elapsed 1000)
      (collectStep p ((now + min elapsed 1000) / 1000) m bytes)

/-- With enough time budget to reach the error, a connectivity error stops
the loop right away: the pops performed are exactly those before and
including the error, and the response map returned is exactly the collector
fold over the pre-error prefix. -/
theorem redisLoop_error_run (p : List Nat → Option JsonDoc) (dl : Nat)
    (q : List String) (post : List PopEvent) :
    ∀ (pre : List PopEvent) (now : Nat) (m : List (String × PingResponse)),
      PopEvent.connErr ∉ pre → now + 1000 * (pre.length + 1) ≤ dl →
      (redisLoop p dl q (pre ++ PopEvent.connErr :: post) now m).1 =
        (collectRun p pre now m).1 ∧
      (redisLoop p dl q (pre ++ PopEvent.connErr :: post) now m).2.1 =
        pre.length + 1
  | [], now, m, _, hdl => by
    have h1 : ¬dl ≤ now := by omega
    have h2 : ¬dl - now < 1000 := by omega
    rw [List.nil_append, redisLoop.eq_def]
    simp [h1, h2, collectRun]
  | e :: pre', now, m, hpre, hdl => by
    have hne : e ≠ PopEvent.connErr := fun hh => hpre (hh ▸ List.mem_cons_self _ _)
    have hpre' : PopEvent.connErr ∉ pre' := fun hh => hpre (List.mem_cons_of_mem _ hh)
    simp only [List.length_cons] at hdl
    have h1 : ¬dl ≤ now := by omega
    have h2 : ¬dl - now < 1000 := by omega
    rw [List.cons_append, redisLoop.eq_def]
    cases e with
    | connErr => exact absurd rfl hne
    | nilTimeout =>
      have ih := redisLoop_error_run p dl q post pre' (now + 1000) m hpre' (by omega)
      simp only [h1, h2, if_false, List.length_cons, collectRun]
      simp only [ih.1, ih.2]
      simp
    | payload bytes elapsed =>
      have hmin : min elapsed 1000 ≤ 1000 := Nat.min_le_right _ _
      have ih := redisLoop_error_run p dl q post pre' (now + min elapsed 1000)
        (collectStep p ((now + min elapsed 1000) / 1000) m bytes) hpre' (by omega)
      simp only [h1, h2, if_false, List.length_cons, collectRun]
      simp only [ih.1, ih.2]
      simp

/-- Claim C1, amended: a broker connectivity error inside the collection loop
terminates the loop (the receive attempts performed are exactly those before
and including the error), and Ping returns exactly the responses already
collected — the collector fold over the payloads popped before the error —
without an error; in particular, when no responses have been collected yet an
empty map and a nil error are returned, and the error is never surfaced to
the caller. -/
theorem redisPing_loop_error_returns_partial (p : List Nat → Option JsonDoc)
    (replyTo ticket tag : String) (dests : List String) (timeoutMs now0 : Nat)
    (pre post : List PopEvent) (hpre : PopEvent.connErr ∉ pre)
    (hdl : 50 + 1000 * (pre.length + 1) ≤ timeoutMs) :
    (redisPing p true replyTo ticket tag dests timeoutMs now0 true true
      (pre ++ PopEvent.connErr :: post)).error = none ∧
    (redisPing p true replyTo ticket tag dests timeoutMs now0 true true
      (pre ++ PopEvent.connErr :: post)).result =
        some (collectRun p pre (now0 + 50) []).1 ∧
    (redisPing p true replyTo ticket tag dests timeoutMs now0 true true
      (pre ++ PopEvent.connErr :: post)).pops = pre.length + 1 := by
  have h := redisLoop_error_run p (now0 + timeoutMs) (replyQueues replyTo) post
    pre (now0 + 50) [] hpre (by omega)
  exact ⟨by simp [redisPing], by simp [redisPing, h.1], by simp [redisPing, h.2]⟩

theorem redisPing_loop_error_returns_partial_witness :
    PopEvent.connErr ∉ [PopEvent.payload [2] 10] ∧
    50 + 1000 * (([PopEvent.payload [2] 10] : List PopEvent).length + 1) ≤ 5000 ∧
    (collectRun c5p [PopEvent.payload [2] 10] 50 []).1 =
      [("w@h", ⟨"w@h", "pong", 0⟩)] ∧
    ((redisPing c5p true "r" "t" "g" [] 5000 0 true true
        [PopEvent.payload [2] 10, PopEvent.connErr]).error = none ∧
     (redisPing c5p true "r" "t" "g" [] 5000 0 true true
        [PopEvent.payload [2] 10, PopEvent.connErr]).result =
       some (collectRun c5p [PopEvent.payload [2] 10] 50 []).1 ∧
     (redisPing c5p true "r" "t" "g" [] 5000 0 true true
        [PopEvent.payload [2] 10, PopEvent.connErr]).pops =
       ([PopEvent.payload [2] 10] : List PopEvent).length + 1) :=
  ⟨by decide, by decide, by decide,
   redisPing_loop_error_returns_partial c5p "r" "t" "g" [] 5000 0
     [PopEvent.payload [2] 10] [] (by decide) (by decide)⟩

/-! ## Claim C8: the envelope `expires` header versus the collection timeout. -/

/-- Claim C8 is false on the code: `headers.expires` is the fixed creation
time plus 10 seconds (handler.go lines 76-78), independent of the caller's
timeout.  For a Ping call with an 11 s collection timeout starting at time 0
— a timeout the configuration accepts — the published envelope expires at
unix second 10, before the collection window ends at second 11, so it does
not outlive that collection timeout. -/
theorem pingEnvelope_expires_cex :
    (redisPing c1p true "r" "tk" "tg" [] 11000 0 true true []).cmds =
      RCmd.publish "/0.celery.pidbox" (.obj (pingEnvelope "r" [] "tk" "tg" 0)) ::
        [RCmd.sadd bindingSetKey (bindingKey "r"),
         RCmd.srem bindingSetKey (bindingKey "r"),
         RCmd.del (replyQueues "r")] ∧
    alookup (pingEnvelope "r" [] "tk" "tg" 0) "headers" =
      some (.obj [("clock", .num 1), ("expires", .num 10)]) ∧
    10 < (0 + 11000) / 1000 :=
  ⟨rfl, rfl, by decide⟩

/-- Claim C8, amended: the envelope published by a Ping call carries
`headers.expires` equal to the message-creation unix time plus 10, in unix
seconds (not milliseconds) — a fixed 10-second cutoff independent of the
collection timeout, which outlives the collection timeout only when that
timeout is at most 10 seconds (as the 1.5 s default is). -/
theorem pingEnvelope_expires_ten_seconds (p : List Nat → Option JsonDoc)
    (replyTo ticket tag : String) (dests : List String)
    (timeoutMs now0 : Nat) (events : List PopEvent) (h10 : timeoutMs ≤ 10000) :
    (∃ rest,
      (redisPing p true replyTo ticket tag dests timeoutMs now0 true true events).cmds =
        RCmd.publish "/0.celery.pidbox"
          (.obj (pingEnvelope replyTo dests ticket tag (now0 / 1000))) :: rest) ∧
    alookup (pingEnvelope replyTo dests ticket tag (now0 / 1000)) "headers" =
      some (.obj [("clock", .num 1), ("expires", .num (now0 / 1000 + 10 : Nat))]) ∧
    (now0 + timeoutMs) / 1000 ≤ now0 / 1000 + 10 := by
  refine ⟨⟨RCmd.sadd bindingSetKey (bindingKey replyTo) ::
    (redisLoop p (now0 + timeoutMs) (replyQueues replyTo) events (now0 + 50) []).2.2 ++
      [RCmd.srem bindingSetKey (bindingKey replyTo), RCmd.del (replyQueues replyTo)],
    by simp [redisPing]⟩, rfl, by omega⟩

theorem pingEnvelope_expires_ten_seconds_witness :
    1500 ≤ 10000 ∧
    ((∃ rest,
       (redisPing c1p true "r" "tk" "tg" [] 1500 0 true true []).cmds =
         RCmd.publish "/0.celery.pidbox"
           (.obj (pingEnvelope "r" [] "tk" "tg" 0)) :: rest) ∧
     alookup (pingEnvelope "r" [] "tk" "tg" 0) "headers" =
       some (.obj [("clock", .num 1), ("expires", .num 10)]) ∧
     (0 + 1500) / 1000 ≤ 0 / 1000 + 10) :=
  ⟨by decide,
   pingEnvelope_expires_ten_seconds c1p "r" "tk" "tg" [] 1500 0 [] (by decide)⟩

/-! ## Claim C6: the inactivity timer of the AMQP collection loop. -/

/-- When the next event to fire is an inbound message (strictly before
cancellation, the deadline, and the armed inactivity timer), the loop
processes it and re-arms the inactivity timer to `arrival + 100` ms. -/
theorem amqpLoop_step_msg (p : List Nat → Option JsonDoc) (deadline : Nat)
    (cancelT : Option Nat) (t : Nat) (bytes : List Nat)
    (rest : List (Nat × List Nat)) (tDl : Nat) (armed : Bool)
    (resp : List (String × PingResponse))
    (hc : ∀ c, cancelT = some c → t < c) (hd : t < deadline)
    (ht : armed = true → t < tDl) :
    amqpLoop p deadline cancelT ⟨(t, bytes) :: rest, tDl, armed, resp⟩ =
      amqpLoop p deadline cancelT
        ⟨rest, t + 100, true, collectStep p (t / 1000) resp bytes⟩ := by
  conv_lhs => rw [amqpLoop.eq_def]
  have h1 : ¬deadline ≤ t := by omega
  cases armed with
  | false =>
    cases cancelT with
    | none => simp [timerTime, headMsgTime, leOpt, h1]
    | some c =>
      have h2 : ¬c ≤ t := by have := hc c rfl; omega
      simp [timerTime, headMsgTime, leOpt, h1, h2]
  | true =>
    have h3 : ¬tDl ≤ t := by have := ht rfl; omega
    cases cancelT with
    | none => simp [timerTime, headMsgTime, leOpt, h1, h3]
    | some c =>
      have h2 : ¬c ≤ t := by have := hc c rfl; omega
      simp [timerTime, headMsgTime, leOpt, h1, h2, h3]

/-- When the next event to fire is the armed inactivity timer and at least one
response has been collected, the loop returns the collected responses with no
error. -/
theorem amqpLoop_step_quiet_pos (p : List Nat → Option JsonDoc) (deadline : Nat)
    (cancelT : Option Nat) (msgs : List (Nat × List Nat)) (tDl : Nat)
    (resp : List (String × PingResponse))
    (hc : ∀ c, cancelT = some c → tDl < c) (hd : tDl < deadline)
    (hm : ∀ t bytes rest, msgs = (t, bytes) :: rest → tDl < t)
    (hr : resp ≠ []) :
    amqpLoop p deadline cancelT ⟨msgs, tDl, true, resp⟩ = (resp, none) := by
  conv_lhs => rw [amqpLoop.eq_def]
  have hlen : 0 < resp.length := List.length_pos.mpr hr
  have h1 : ¬deadline ≤ tDl := by omega
  have h2 : tDl ≤ deadline := by omega
  cases msgs with
  | nil =>
    cases cancelT with
    | none => simp [timerTime, headMsgTime, leOpt, h1, h2, hlen]
    | some c =>
      have h3 : ¬c ≤ tDl := by have := hc c rfl; omega
      simp [timerTime, headMsgTime, leOpt, h1, h2, h3, hlen]
  | cons hd0 rest =>
    have h4 : tDl < hd0.1 := hm hd0.1 hd0.2 rest (by rw [← Prod.mk.eta (p := hd0)])
    have h5 : tDl ≤ hd0.1 := by omega
    cases cancelT with
    | none => simp [timerTime, headMsgTime, leOpt, h1, h2, h5, hlen]
    | some c =>
      have h3 : ¬c ≤ tDl := by have := hc c rfl; omega
      simp [timerTime, headMsgTime, leOpt, h1, h2, h3, h5, hlen]

/-- When the armed inactivity timer fires with zero responses collected, the
loop merely disarms the timer and keeps waiting. -/
theorem amqpLoop_step_quiet_zero (p : List Nat → Option JsonDoc) (deadline : Nat)
    (cancelT : Option Nat) (msgs : List (Nat × List Nat)) (tDl : Nat)
    (hc : ∀ c, cancelT = some c → tDl < c) (hd : tDl < deadline)
    (hm : ∀ t bytes rest, msgs = (t, bytes) :: rest → tDl < t) :
    amqpLoop p deadline cancelT ⟨msgs, tDl, true, []⟩ =
      amqpLoop p deadline cancelT ⟨msgs, tDl, false, []⟩ := by
  conv_lhs => rw [amqpLoop.eq_def]
  have h1 : ¬deadline ≤ tDl := by omega
  have h2 : tDl ≤ deadline := by omega
  cases msgs with
  | nil =>
    cases cancelT with
    | none => simp [timerTime, headMsgTime, leOpt, h1, h2]
    | some c =>
      have h3 : ¬c ≤ tDl := by have := hc c rfl; omega
      simp [timerTime, headMsgTime, leOpt, h1, h2, h3]
  | cons hd0 rest =>
    have h4 : tDl < hd0.1 := hm hd0.1 hd0.2 rest (by rw [← Prod.mk.eta (p := hd0)])
    have h5 : tDl ≤ hd0.1 := by omega
    cases cancelT with
    | none => simp [timerTime, headMsgTime, leOpt, h1, h2, h5]
    | some c =>
      have h3 : ¬c ≤ tDl := by have := hc c rfl; omega
      simp [timerTime, headMsgTime, leOpt, h1, h2, h3, h5]

/-- With the timer disarmed, no pending message and no cancellation, the loop
returns at the overall deadline with the collected responses and no error. -/
theorem amqpLoop_runs_to_deadline (p : List Nat → Option JsonDoc) (deadline : Nat)
    (tDl : Nat) (resp : List (String × PingResponse)) :
    amqpLoop p deadline none ⟨[], tDl, false, resp⟩ = (resp, none) := by
  conv_lhs => rw [amqpLoop.eq_def]
  simp [timerTime, headMsgTime, leOpt]

/-- Claim C6: in the AMQP collection loop the inactivity timer is re-armed to
`arrival + 100` ms by each inbound message; when the armed timer is the next
event to fire and at least one response has been collected, the loop returns
early with the collected responses; when it fires with zero responses
collected, the loop only disarms the timer and keeps waiting, returning at
the overall deadline (with whatever was collected, and no error) if nothing
else arrives. -/
theorem amqpLoop_inactivity_timer_spec (p : List Nat → Option JsonDoc)
    (deadline : Nat) (cancelT : Option Nat) :
    (∀ t bytes rest tDl armed resp,
      (∀ c, cancelT = some c → t < c) → t < deadline → (armed = true → t < tDl) →
      amqpLoop p deadline cancelT ⟨(t, bytes) :: rest, tDl, armed, resp⟩ =
        amqpLoop p deadline cancelT
          ⟨rest, t + 100, true, collectStep p (t / 1000) resp bytes⟩) ∧
    (∀ msgs tDl resp,
      (∀ c, cancelT = some c → tDl < c) → tDl < deadline →
      (∀ t bytes rest, msgs = (t, bytes) :: rest → tDl < t) → resp ≠ [] →
      amqpLoop p deadline cancelT ⟨msgs, tDl, true, resp⟩ = (resp, none)) ∧
    (∀ msgs tDl,
      (∀ c, cancelT = some c → tDl < c) → tDl < deadline →
      (∀ t bytes rest, msgs = (t, bytes) :: rest → tDl < t) →
      amqpLoop p deadline cancelT ⟨msgs, tDl, true, []⟩ =
        amqpLoop p deadline cancelT ⟨msgs, tDl, false, []⟩) ∧
    (∀ tDl resp, cancelT = none →
      amqpLoop p deadline cancelT ⟨[], tDl, false, resp⟩ = (resp, none)) :=
  ⟨fun t bytes rest tDl armed resp hc hd ht =>
     amqpLoop_step_msg p deadline cancelT t bytes rest tDl armed resp hc hd ht,
   fun msgs tDl resp hc hd hm hr =>
     amqpLoop_step_quiet_pos p deadline cancelT msgs tDl resp hc hd hm hr,
   fun msgs tDl hc hd hm =>
     amqpLoop_step_quiet_zero p deadline cancelT msgs tDl hc hd hm,
   fun tDl resp hcn => by
     subst hcn
     exact amqpLoop_runs_to_deadline p deadline tDl resp⟩

theorem amqpLoop_inactivity_timer_spec_witness :
    (amqpLoop c5p 5000 none ⟨[(200, [2])], 300, true, []⟩ =
      amqpLoop c5p 5000 none ⟨[], 300, true, collectStep c5p (200 / 1000) [] [2]⟩) ∧
    (amqpLoop c5p 5000 none ⟨[], 300, true, [("w@h", ⟨"w@h", "pong", 0⟩)]⟩ =
      ([("w@h", ⟨"w@h", "pong", 0⟩)], none)) ∧
    (amqpLoop c5p 5000 none ⟨[], 300, true, []⟩ =
      amqpLoop c5p 5000 none ⟨[], 300, false, []⟩) :=
  ⟨by
    have h := (amqpLoop_inactivity_timer_spec c5p 5000 none).1 200 [2] [] 300 true []
      (fun c hc => by cases hc) (by decide) (fun _ => by decide)
    simpa using h,
   (amqpLoop_inactivity_timer_spec c5p 5000 none).2.1 [] 300 [("w@h", ⟨"w@h", "pong", 0⟩)]
     (fun c hc => by cases hc) (by decide)
     (fun t bytes rest hh => by cases hh) (by simp),
   (amqpLoop_inactivity_timer_spec c5p 5000 none).2.2.1 [] 300
     (fun c hc => by cases hc) (by decide)
     (fun t bytes rest hh => by cases hh)⟩

/-! ## Claim C9: determinism of identity extraction.

`ExtractWorkerName` ranges over a Go map.  Go's `range` order over a map is
unspecified and actively randomized from one iteration to the next, so two
applications to the same document observe two arbitrary permutations of the
same entry list. -/

/-- `find?` is the head of the filtered list. -/
theorem find?_eq_head?_filter (q : α → Bool) : ∀ l : List α, l.find? q = (l.filter q).head?
  | [] => rfl
  | a :: l => by
    by_cases h : q a
    · rw [List.find?_cons_of_pos _ h, List.filter_cons_of_pos h]
      rfl
    · rw [List.find?_cons_of_neg _ (by simpa using h),
        List.filter_cons_of_neg (by simpa using h)]
      exact find?_eq_head?_filter q l

/-- Permuted lists of length at most one are equal. -/
theorem perm_eq_of_length_le_one {l1 l2 : List α} (h : l1.Perm l2)
    (hl : l1.length ≤ 1) : l1 = l2 := by
  cases l1 with
  | nil => exact (h.nil_eq).symm ▸ rfl
  | cons a l =>
    cases l with
    | nil => exact List.singleton_perm.mp h
    | cons b m => simp at hl

/-- A first-match search is permutation-invariant when at most one element
matches. -/
theorem find?_perm_unique (q : α → Bool) {l1 l2 : List α} (h : l1.Perm l2)
    (hu : (l1.filter q).length ≤ 1) : l1.find? q = l2.find? q := by
  rw [find?_eq_head?_filter, find?_eq_head?_filter,
    perm_eq_of_length_le_one (h.filter q) hu]

/-- `alookup` is the first-match search for the key. -/
theorem alookup_eq_find? (k : String) :
    ∀ l : List (String × α), alookup l k = (l.find? (fun e => e.1 == k)).map Prod.snd
  | [] => rfl
  | (k', v) :: rest => by
    by_cases h : k' = k
    · simp [alookup, h, List.find?_cons_of_pos]
    · simp only [alookup, if_neg h]
      rw [List.find?_cons_of_neg _ (by simpa using h)]
      exact alookup_eq_find? k rest

/-- Under distinct keys, at most one entry matches a key. -/
theorem filter_keyeq_length_le_one (k : String) :
    ∀ l : List (String × α), (l.map Prod.fst).Nodup →
      (l.filter (fun e => e.1 == k)).length ≤ 1
  | [], _ => by simp
  | (k', v) :: rest, hnd => by
    simp only [List.map_cons, List.nodup_cons] at hnd
    by_cases h : k' = k
    · rw [List.filter_cons_of_pos (by simpa using h)]
      have hrest : rest.filter (fun e => e.1 == k) = [] := by
        rw [List.filter_eq_nil_iff]
        intro e he hek
        exact hnd.1 (h ▸ (by simpa using hek) ▸ List.mem_map_of_mem Prod.fst he)
      simp [hrest]
    · rw [List.filter_cons_of_neg (by simpa using h)]
      exact filter_keyeq_length_le_one k rest hnd.2

/-- Map lookups are permutation-invariant for documents without duplicate
keys. -/
theorem alookup_perm {l1 l2 : List (String × α)} (h : l1.Perm l2)
    (hnd : (l1.map Prod.fst).Nodup) (k : String) : alookup l1 k = alookup l2 k := by
  rw [alookup_eq_find?, alookup_eq_find?,
    find?_perm_unique _ h (filter_keyeq_length_le_one k l1 hnd)]

/-- `findSome?` only depends on the values of the probe on the list. -/
theorem findSome?_congr (f g : α → Option β) :
    ∀ l : List α, (∀ x ∈ l, f x = g x) → l.findSome? f = l.findSome? g
  | [], _ => rfl
  | a :: l, h => by
    rw [List.findSome?_cons, List.findSome?_cons, h a (by simp)]
    cases g a with
    | some b => rfl
    | none => exact findSome?_congr f g l (fun x hx => h x (by simp [hx]))

/-- Claim C9, amended: identity extraction is a pure function of the
document's entry enumeration — two applications observing the same
enumeration yield the same string — and for a document without duplicate keys
in which at most one entry matches the `@`-keyed worker pattern and at most
one matches the last-resort scan, the result is moreover independent of the
enumeration order, so applying `ExtractWorkerName` twice always yields the
same string for such documents.  (For documents with several distinct
matching keys the result depends on the randomized map iteration order; see
the counterexample.) -/
theorem extractWorkerName_perm_invariant (l1 l2 : JsonDoc) (hperm : l1.Perm l2)
    (hnd : (l1.map Prod.fst).Nodup)
    (hat1 : (l1.filter atKeyPred).length ≤ 1)
    (hscan1 : (l1.filter scanPred).length ≤ 1) :
    extractWorkerName l1 = extractWorkerName l2 := by
  have hat : atWorkerKey l1 = atWorkerKey l2 := by
    unfold atWorkerKey
    rw [find?_perm_unique atKeyPred hperm hat1]
  have hlookup : ∀ k, alookup l1 k = alookup l2 k := alookup_perm hperm hnd
  have hdata : dataIdentity l1 = dataIdentity l2 := by
    unfold dataIdentity
    rw [hlookup "data"]
  have htop : topIdentity l1 = topIdentity l2 := by
    unfold topIdentity firstFieldIn
    exact findSome?_congr _ _ identityFields (fun f _ => by rw [hlookup f])
  have hscan : scanIdentity l1 = scanIdentity l2 := by
    unfold scanIdentity
    rw [find?_perm_unique scanPred hperm hscan1]
  unfold extractWorkerName
  rw [hat, hdata, htop, hscan]

/-- The same response document in two map-iteration orders. -/
def c9doc1 : JsonDoc :=
  [("a@x", .obj [("ok", .str "pong")]), ("b@x", .obj [("ok", .str "pong")])]

/-- The entries of `c9doc1`, enumerated the other way round. -/
def c9doc2 : JsonDoc :=
  [("b@x", .obj [("ok", .str "pong")]), ("a@x", .obj [("ok", .str "pong")])]

/-- Claim C9 is false on the code: for a document with two distinct `@`-keyed
worker entries, `ExtractWorkerName` returns whichever key its `range` loop
happens to visit first (handler.go lines 143-152), and Go randomizes that
order per iteration — the two enumerations of the same key set yield
different strings, so two applications to the same document need not agree. -/
theorem extractWorkerName_order_dependent_cex :
    c9doc1.Perm c9doc2 ∧ (c9doc1.map Prod.fst).Nodup ∧
    extractWorkerName c9doc1 = "a@x" ∧ extractWorkerName c9doc2 = "b@x" ∧
    extractWorkerName c9doc1 ≠ extractWorkerName c9doc2 :=
  ⟨List.Perm.swap _ _ _, by decide, by decide, by decide, by decide⟩

theorem extractWorkerName_perm_invariant_witness :
    ([("hostname", Json.str "a@b"), ("x", Json.num 1)] : JsonDoc).Perm
      [("x", Json.num 1), ("hostname", Json.str "a@b")] ∧
    extractWorkerName [("hostname", Json.str "a@b"), ("x", Json.num 1)] =
      extractWorkerName [("x", Json.num 1), ("hostname", Json.str "a@b")] :=
  ⟨List.Perm.swap _ _ _,
   extractWorkerName_perm_invariant
     [("hostname", Json.str "a@b"), ("x", Json.num 1)]
     [("x", Json.num 1), ("hostname", Json.str "a@b")]
     (List.Perm.swap _ _ _) (by decide) (by decide) (by decide)⟩
